import Mathlib

/-!
Verification of the measure registry and the concrete measures of
`dival/measure.py` (class `Measure` and its subclasses `L2Measure`,
`MSEMeasure`, `PSNRMeasure`, `SSIMMeasure`).

Embedding conventions:
* Python strings are `String`; `str(i)` for a natural number is embedded as
  decimal-digit conversion (`natToString`).
* `Measure.measure_dict` (an insertion-ordered Python dict) is embedded as an
  association list `Registry`; instances are identified by `Nat` ids.
* numpy arrays are `List ℝ`; `np.mean`, `np.linalg.norm`, `np.max`, `np.min`
  are embedded elementwise over the flattened list.
* the float infinity returned by `PSNRMeasure.apply` is `(⊤ : EReal)`; finite
  results are real numbers coerced into `EReal`.
* `skimage.metrics.structural_similarity` is external to the repository and is
  taken as an arbitrary function parameter.
-/

namespace Dival

/-- Decimal digit character, as produced by Python `str` on a digit `d < 10`. -/
def natDigitChar (d : Nat) : Char := Char.ofNat (48 + d)

/-- Decimal representation of a natural number, embedding Python `str(i)`. -/
def natToString (n : Nat) : String :=
  if n = 0 then "0" else String.mk (((Nat.digits 10 n).map natDigitChar).reverse)

/-- The i-th name yielded by `gen_unique_name(name_orig)`, which formats
`name_orig`, an underscore and `str(i)`, for `i = 1, 2, 3, ...`. -/
def gen_unique_name (name_orig : String) (i : Nat) : String :=
  name_orig ++ "_" ++ natToString i

/-- Embedding of `Measure.measure_dict`: a Python dict from short name to
Measure instance, as an insertion-ordered association list.  Instances are
identified by `Nat` ids. -/
abbrev Registry := List (String × Nat)

/-- Keys of the registry dict. -/
def regKeys (d : Registry) : List String := d.map Prod.fst

/-- Python `d.get(k)`: value of the first (unique) binding of `k`, if any. -/
def regGet (d : Registry) (k : String) : Option Nat :=
  (d.find? (fun p => p.1 == k)).map Prod.snd

/-- Python `d[k] = v` on an insertion-ordered dict: overwrite the existing
binding in place, or append a new binding. -/
def regInsert (d : Registry) (k : String) (v : Nat) : Registry :=
  if k ∈ regKeys d then d.map (fun p => if p.1 = k then (k, v) else p)
  else d ++ [(k, v)]

/-- The `while self.short_name in measure_dict` loop of `Measure.__init__`,
with explicit fuel: starting from suffix index `i`, return the first
`gen_unique_name` candidate that is not a registry key. -/
def findUnusedName (keys : List String) (base : String) : Nat → Nat → String
  | 0, i => gen_unique_name base i
  | fuel + 1, i =>
    if gen_unique_name base i ∈ keys then findUnusedName keys base fuel (i + 1)
    else gen_unique_name base i

/-- Resolution of `self.short_name` at the top of `Measure.__init__`:
`if short_name is not None: self.short_name = short_name
elif self.short_name is None: self.short_name = self.__class__.__name__`.
`classAttr` is the value of the class attribute `short_name` seen on `self`
before assignment (`none` embeds Python `None`; the base class `Measure`
declares `short_name = ''`, so a subclass that declares nothing inherits
`some ""`). -/
def initShortName (passed : Option String) (classAttr : Option String)
    (clsName : String) : String :=
  match passed with
  | some s => s
  | none =>
    match classAttr with
    | none => clsName
    | some s => s

/-- Result of one run of `Measure.__init__`: the effective short name, whether
the duplicate-name warning was emitted, and the updated registry. -/
structure InitResult where
  short_name : String
  warned : Bool
  dict : Registry
deriving DecidableEq

/-- Embedding of `Measure.__init__(short_name)` acting on registry `dict`,
registering the instance id `inst`. -/
def measureInit (dict : Registry) (inst : Nat) (passed classAttr : Option String)
    (clsName : String) : InitResult :=
  let resolved := initShortName passed classAttr clsName
  if resolved ∈ regKeys dict then
    let n := findUnusedName (regKeys dict) resolved ((regKeys dict).length + 1) 1
    ⟨n, true, regInsert dict n inst⟩
  else
    ⟨resolved, false, regInsert dict resolved inst⟩

/-- Embedding of `Measure.get_by_short_name`: `cls.measure_dict.get(short_name)`. -/
def get_by_short_name (d : Registry) (short_name : String) : Option Nat :=
  regGet d short_name

/-! Numeric measures.  Arrays are flattened lists of reals. -/

/-- Elementwise squared differences
`(np.asarray(reconstruction) - np.asarray(ground_truth))**2`, flattened. -/
noncomputable def sqDiff (reconstruction ground_truth : List ℝ) : List ℝ :=
  (reconstruction.zip ground_truth).map (fun p => (p.1 - p.2) ^ 2)

/-- Embedding of `L2Measure.apply`: `np.linalg.norm` of the flattened
difference, i.e. the square root of the sum of squared differences. -/
noncomputable def L2Measure_apply (reconstruction ground_truth : List ℝ) : ℝ :=
  Real.sqrt (sqDiff reconstruction ground_truth).sum

/-- Embedding of `np.mean((reconstruction - ground_truth)**2)`. -/
noncomputable def mseOf (reconstruction ground_truth : List ℝ) : ℝ :=
  (sqDiff reconstruction ground_truth).sum / (sqDiff reconstruction ground_truth).length

/-- Embedding of `MSEMeasure.apply`. -/
noncomputable def MSEMeasure_apply (reconstruction ground_truth : List ℝ) : ℝ :=
  mseOf reconstruction ground_truth

/-- Embedding of `np.max` on a flattened nonempty array (junk `0` on `[]`,
where numpy raises). -/
noncomputable def npMax : List ℝ → ℝ
  | [] => 0
  | x :: xs => xs.foldl max x

/-- Embedding of `np.min` on a flattened nonempty array (junk `0` on `[]`,
where numpy raises). -/
noncomputable def npMin : List ℝ → ℝ
  | [] => 0
  | x :: xs => xs.foldl min x

/-- Python `x or y` where `x` is a float-or-None configuration value: `None`
and `0.0` are falsy, every other float is truthy. -/
noncomputable def pyOr (x : Option ℝ) (y : ℝ) : ℝ :=
  match x with
  | none => y
  | some v => if v = 0 then y else v

/-- Embedding of `PSNRMeasure.apply` for a measure constructed with
`data_range` (`none` embeds Python `None`); float infinity is `⊤ : EReal`. -/
noncomputable def PSNRMeasure_apply (data_range : Option ℝ)
    (reconstruction ground_truth : List ℝ) : EReal :=
  let mse := mseOf reconstruction ground_truth
  if mse = 0 then (⊤ : EReal)
  else ((20 * Real.logb 10 (pyOr data_range (npMax ground_truth - npMin ground_truth))
        - 10 * Real.logb 10 mse : ℝ) : EReal)

/-- The `data_range` value that `SSIMMeasure.apply` passes to
`structural_similarity`: the configured value if it `is not None`, else
`np.max(gt) - np.min(gt)`. -/
noncomputable def SSIM_data_range (data_range : Option ℝ) (ground_truth : List ℝ) : ℝ :=
  match data_range with
  | some v => v
  | none => npMax ground_truth - npMin ground_truth

/-- Embedding of `SSIMMeasure.apply`: delegate to the external
`structural_similarity` routine with the selected data range. -/
noncomputable def SSIMMeasure_apply (structural_similarity : List ℝ → List ℝ → ℝ → ℝ)
    (data_range : Option ℝ) (reconstruction ground_truth : List ℝ) : ℝ :=
  structural_similarity reconstruction ground_truth
    (SSIM_data_range data_range ground_truth)

/-- A measure as seen by the fixed-ground-truth adapter: its `apply` method.
`α` is the result type (`ℝ`, or `EReal` for PSNR). -/
structure MeasureData (α : Type) where
  apply : List ℝ → List ℝ → α

/-- Embedding of `Measure._OperatorForFixedGroundTruth`: holds the measure and
the fixed ground truth. -/
structure OperatorForFixedGroundTruth (α : Type) where
  measure : MeasureData α
  ground_truth : List ℝ

/-- The `_call(self, x)` method of `_OperatorForFixedGroundTruth`:
`self.measure.apply(x, self.ground_truth)`. -/
def OperatorForFixedGroundTruth.call {α : Type}
    (op : OperatorForFixedGroundTruth α) (x : List ℝ) : α :=
  op.measure.apply x op.ground_truth

/-- Embedding of `Measure.as_operator_for_fixed_ground_truth`. -/
def as_operator_for_fixed_ground_truth {α : Type} (m : MeasureData α)
    (ground_truth : List ℝ) : OperatorForFixedGroundTruth α :=
  ⟨m, ground_truth⟩

/-- The built-in `L2` measure as adapter input. -/
noncomputable def L2 : MeasureData ℝ := ⟨L2Measure_apply⟩

/-- The built-in `MSE` measure as adapter input. -/
noncomputable def MSE : MeasureData ℝ := ⟨MSEMeasure_apply⟩

/-- A `PSNRMeasure` with the given `data_range` as adapter input. -/
noncomputable def PSNR (data_range : Option ℝ) : MeasureData EReal :=
  ⟨PSNRMeasure_apply data_range⟩

/-- An `SSIMMeasure` with the given `data_range`, delegating to the external
routine `f`, as adapter input. -/
noncomputable def SSIM (f : List ℝ → List ℝ → ℝ → ℝ) (data_range : Option ℝ) :
    MeasureData ℝ :=
  ⟨SSIMMeasure_apply f data_range⟩

/-! Registry helper lemmas. -/

lemma regKeys_append (d e : Registry) : regKeys (d ++ e) = regKeys d ++ regKeys e := by
  simp [regKeys]

lemma regGet_cons (p : String × Nat) (d : Registry) (k : String) :
    regGet (p :: d) k = if p.1 = k then some p.2 else regGet d k := by
  by_cases h : p.1 = k <;> simp [regGet, List.find?_cons, h]

lemma regGet_eq_none_of_not_mem {d : Registry} {k : String} (h : k ∉ regKeys d) :
    regGet d k = none := by
  induction d with
  | nil => rfl
  | cons p d ih =>
    rw [show regKeys (p :: d) = p.1 :: regKeys d from rfl, List.mem_cons] at h
    push_neg at h
    rw [regGet_cons, if_neg (Ne.symm h.1)]
    exact ih h.2

lemma regGet_append_of_some {d : Registry} {k : String} {v : Nat} (e : Registry)
    (h : regGet d k = some v) : regGet (d ++ e) k = some v := by
  induction d with
  | nil => simp [regGet] at h
  | cons p d ih =>
    rw [regGet_cons] at h
    rw [List.cons_append, regGet_cons]
    by_cases hp : p.1 = k
    · rwa [if_pos hp] at h ⊢
    · rw [if_neg hp] at h ⊢
      exact ih h

lemma regGet_append_right {d : Registry} {k : String} (e : Registry)
    (h : k ∉ regKeys d) : regGet (d ++ e) k = regGet e k := by
  induction d with
  | nil => rfl
  | cons p d ih =>
    rw [show regKeys (p :: d) = p.1 :: regKeys d from rfl, List.mem_cons] at h
    push_neg at h
    rw [List.cons_append, regGet_cons, if_neg (Ne.symm h.1)]
    exact ih h.2

lemma regGet_singleton (k : String) (v : Nat) : regGet [(k, v)] k = some v := by
  simp [regGet_cons]

lemma regInsert_of_not_mem {d : Registry} {k : String} (v : Nat) (h : k ∉ regKeys d) :
    regInsert d k v = d ++ [(k, v)] := by
  simp [regInsert, h]

lemma regGet_of_mem_nodup {d : Registry} {k : String} {v : Nat}
    (hmem : (k, v) ∈ d) (hnd : (regKeys d).Nodup) : regGet d k = some v := by
  induction d with
  | nil => cases hmem
  | cons p d ih =>
    have hnd1 : p.1 ∉ regKeys d ∧ (regKeys d).Nodup := by
      simpa [regKeys] using hnd
    rw [regGet_cons]
    rcases List.mem_cons.mp hmem with h | h
    · rw [← h]
      simp
    · have hk : k ∈ regKeys d := List.mem_map.mpr ⟨(k, v), h, rfl⟩
      have hne : p.1 ≠ k := fun e => hnd1.1 (e ▸ hk)
      rw [if_neg hne]
      exact ih h hnd1.2

/-! Injectivity of the generated suffix names. -/

lemma natDigitChar_injOn {a b : Nat} (ha : a < 10) (hb : b < 10)
    (h : natDigitChar a = natDigitChar b) : a = b := by
  interval_cases a <;> interval_cases b <;> revert h <;> decide

lemma map_natDigitChar_inj : ∀ (l1 l2 : List Nat), (∀ d ∈ l1, d < 10) →
    (∀ d ∈ l2, d < 10) → l1.map natDigitChar = l2.map natDigitChar → l1 = l2 := by
  intro l1
  induction l1 with
  | nil =>
    intro l2 _ _ h
    cases l2 with
    | nil => rfl
    | cons b t => simp at h
  | cons a t ih =>
    intro l2 h1 h2 h
    cases l2 with
    | nil => simp at h
    | cons b t2 =>
      simp only [List.map_cons, List.cons.injEq] at h
      have hab : a = b := natDigitChar_injOn (h1 a (by simp)) (h2 b (by simp)) h.1
      have ht : t = t2 :=
        ih t2 (fun d hd => h1 d (by simp [hd])) (fun d hd => h2 d (by simp [hd])) h.2
      rw [hab, ht]

lemma natToString_inj {m n : Nat} (hm : 0 < m) (hn : 0 < n)
    (h : natToString m = natToString n) : m = n := by
  rw [natToString, natToString, if_neg (Nat.pos_iff_ne_zero.mp hm),
    if_neg (Nat.pos_iff_ne_zero.mp hn)] at h
  have hdata : ((Nat.digits 10 m).map natDigitChar).reverse =
      ((Nat.digits 10 n).map natDigitChar).reverse := congrArg String.data h
  have hmap := List.reverse_injective hdata
  have hdig := map_natDigitChar_inj _ _
    (fun d hd => Nat.digits_lt_base (by norm_num) hd)
    (fun d hd => Nat.digits_lt_base (by norm_num) hd) hmap
  exact Nat.digits.injective 10 hdig

lemma gen_unique_name_inj {base : String} {i j : Nat} (hi : 0 < i) (hj : 0 < j)
    (h : gen_unique_name base i = gen_unique_name base j) : i = j := by
  have hdata := congrArg String.data h
  simp only [gen_unique_name, String.data_append] at hdata
  have h1 := List.append_cancel_left hdata
  have h3 : natToString i = natToString j := congrArg String.mk h1
  exact natToString_inj hi hj h3

lemma gen_unique_name_ne_base (base : String) (i : Nat) :
    gen_unique_name base i ≠ base := by
  intro h
  have hlen : (gen_unique_name base i).data.length = base.data.length := by rw [h]
  rw [gen_unique_name] at hlen
  simp at hlen

/-! Success of the renaming loop: pigeonhole over the candidate suffixes. -/

lemma exists_unused_name (keys : List String) (base : String) :
    ∃ j, 1 ≤ j ∧ j < keys.length + 2 ∧ gen_unique_name base j ∉ keys := by
  by_contra hcon
  push_neg at hcon
  have hsub : ((List.range (keys.length + 1)).map
      (fun i => gen_unique_name base (i + 1))) ⊆ keys := by
    intro x hx
    rcases List.mem_map.mp hx with ⟨i, hi, rfl⟩
    have hlt : i < keys.length + 1 := List.mem_range.mp hi
    exact hcon (i + 1) (by omega) (by omega)
  have hnd : ((List.range (keys.length + 1)).map
      (fun i => gen_unique_name base (i + 1))).Nodup := by
    refine List.Nodup.map_on ?_ (List.nodup_range _)
    intro x _ y _ hxy
    have := gen_unique_name_inj (Nat.succ_pos x) (Nat.succ_pos y) hxy
    omega
  have hlen := (hnd.subperm hsub).length_le
  simp only [List.length_map, List.length_range] at hlen
  omega

lemma findUnusedName_spec (keys : List String) (base : String) :
    ∀ (fuel start : Nat),
      (∃ j, start ≤ j ∧ j < start + fuel ∧ gen_unique_name base j ∉ keys) →
      ∃ k, start ≤ k ∧ findUnusedName keys base fuel start = gen_unique_name base k ∧
        gen_unique_name base k ∉ keys ∧
        ∀ j, start ≤ j → j < k → gen_unique_name base j ∈ keys := by
  intro fuel
  induction fuel with
  | zero =>
    rintro start ⟨j, h1, h2, _⟩
    omega
  | succ fuel ih =>
    intro start hex
    by_cases hmem : gen_unique_name base start ∈ keys
    · obtain ⟨j, hj1, hj2, hj3⟩ := hex
      have hjs : j ≠ start := fun e => hj3 (e ▸ hmem)
      obtain ⟨k, hk1, hk2, hk3, hk4⟩ := ih (start + 1) ⟨j, by omega, by omega, hj3⟩
      refine ⟨k, by omega, ?_, hk3, ?_⟩
      · simpa [findUnusedName, hmem] using hk2
      · intro j' hj'1 hj'2
        rcases Nat.eq_or_lt_of_le hj'1 with he | hlt
        · exact he ▸ hmem
        · exact hk4 j' hlt hj'2
    · exact ⟨start, le_refl _, by simp [findUnusedName, hmem], hmem,
        fun j h1 h2 => absurd (lt_of_le_of_lt h1 h2) (lt_irrefl _)⟩

lemma findUnusedName_fresh (keys : List String) (base : String) :
    ∃ k, 1 ≤ k ∧ findUnusedName keys base (keys.length + 1) 1 = gen_unique_name base k ∧
      gen_unique_name base k ∉ keys ∧
      ∀ j, 1 ≤ j → j < k → gen_unique_name base j ∈ keys := by
  apply findUnusedName_spec
  obtain ⟨j, h1, h2, h3⟩ := exists_unused_name keys base
  exact ⟨j, h1, by omega, h3⟩

lemma natToString_one : natToString 1 = "1" := by
  have h10 : Nat.digits 10 1 = [1] := by
    rw [Nat.digits_def' (by norm_num : 1 < 10) one_pos]
    norm_num
  rw [natToString, if_neg one_ne_zero, h10]
  rfl

lemma gen_unique_name_one (base : String) : gen_unique_name base 1 = base ++ "_1" := by
  rw [gen_unique_name, natToString_one]
  apply String.ext
  simp [String.data_append]

/-- Structure of a single `Measure.__init__` run: the effective short name is
never a previous key, and registration appends the new binding. -/
lemma measureInit_fresh_and_append (d : Registry) (inst : Nat)
    (passed classAttr : Option String) (clsName : String) :
    (measureInit d inst passed classAttr clsName).short_name ∉ regKeys d ∧
    (measureInit d inst passed classAttr clsName).dict =
      d ++ [((measureInit d inst passed classAttr clsName).short_name, inst)] := by
  by_cases h : initShortName passed classAttr clsName ∈ regKeys d
  · obtain ⟨k, _, hk2, hk3, _⟩ :=
      findUnusedName_fresh (regKeys d) (initShortName passed classAttr clsName)
    have hname : (measureInit d inst passed classAttr clsName).short_name =
        gen_unique_name (initShortName passed classAttr clsName) k := by
      simp only [measureInit, if_pos h]
      exact hk2
    refine ⟨?_, ?_⟩
    · rw [hname]
      exact hk3
    · simp only [measureInit, if_pos h] at hname ⊢
      rw [regInsert_of_not_mem inst (hk2 ▸ hk3)]
  · refine ⟨?_, ?_⟩
    · simp only [measureInit, if_neg h]
      exact h
    · simp only [measureInit, if_neg h]
      exact regInsert_of_not_mem inst h

/-- C3: constructing any Measure never overwrites an existing registry entry.
For every registry whose keys are pairwise distinct, `Measure.__init__`
appends the new instance under a short name that was not previously a key,
every previously registered binding still resolves to the same instance, and
the registered short names remain pairwise distinct. -/
theorem C3_registry_preservation (d : Registry) (inst : Nat)
    (passed classAttr : Option String) (clsName : String)
    (hnd : (regKeys d).Nodup) :
    (measureInit d inst passed classAttr clsName).short_name ∉ regKeys d ∧
    (measureInit d inst passed classAttr clsName).dict =
      d ++ [((measureInit d inst passed classAttr clsName).short_name, inst)] ∧
    (∀ k v, regGet d k = some v →
      regGet (measureInit d inst passed classAttr clsName).dict k = some v) ∧
    (regKeys (measureInit d inst passed classAttr clsName).dict).Nodup := by
  obtain ⟨hfresh, happ⟩ := measureInit_fresh_and_append d inst passed classAttr clsName
  refine ⟨hfresh, happ, ?_, ?_⟩
  · intro k v hv
    rw [happ]
    exact regGet_append_of_some _ hv
  · rw [happ, regKeys_append]
    rw [List.nodup_append]
    refine ⟨hnd, List.nodup_singleton _, ?_⟩
    intro a ha hb
    have : a = (measureInit d inst passed classAttr clsName).short_name := by
      simpa [regKeys] using hb
    exact hfresh (this ▸ ha)

/-- C3 witness: a concrete registry with distinct keys. -/
theorem C3_registry_preservation_witness :
    (measureInit [("l2", 0)] 7 (some "l2") none "X").short_name ∉ regKeys [("l2", 0)] :=
  (C3_registry_preservation [("l2", 0)] 7 (some "l2") none "X" (by decide)).1

/-- C1: constructing two Measures with the same explicit short name `s`, the
registry initially not containing `s`: the first registers under `s` without a
warning; the second triggers the duplicate-name warning and registers under
`gen_unique_name s k` for the first unused suffix index `k` (in particular
under `s ++ "_1"` whenever `s ++ "_1"` was not already a key); afterwards
`get_by_short_name` returns the first instance for `s` and the second instance
for the suffixed name. -/
theorem C1_duplicate_short_name (d : Registry) (s : String) (i1 i2 : Nat)
    (hs : s ∉ regKeys d) (r1 r2 : InitResult)
    (h1 : r1 = measureInit d i1 (some s) none "A")
    (h2 : r2 = measureInit r1.dict i2 (some s) none "B") :
    r1.short_name = s ∧ r1.warned = false ∧ r2.warned = true ∧
    (∃ k, 1 ≤ k ∧ r2.short_name = gen_unique_name s k ∧
      gen_unique_name s k ∉ regKeys r1.dict ∧
      ∀ j, 1 ≤ j → j < k → gen_unique_name s j ∈ regKeys r1.dict) ∧
    (gen_unique_name s 1 ∉ regKeys d → r2.short_name = s ++ "_1") ∧
    get_by_short_name r2.dict s = some i1 ∧
    get_by_short_name r2.dict r2.short_name = some i2 := by
  have e1 : measureInit d i1 (some s) none "A" = ⟨s, false, d ++ [(s, i1)]⟩ := by
    simp only [measureInit, initShortName, if_neg hs]
    rw [regInsert_of_not_mem i1 hs]
  subst h1
  rw [e1] at h2 ⊢
  have hkeys1 : regKeys (d ++ [(s, i1)]) = regKeys d ++ [s] := regKeys_append d [(s, i1)]
  have hmem : s ∈ regKeys (d ++ [(s, i1)]) := by
    rw [hkeys1]
    simp
  obtain ⟨k, hk1, hk2, hk3, hk4⟩ := findUnusedName_fresh (regKeys (d ++ [(s, i1)])) s
  have e2 : measureInit (d ++ [(s, i1)]) i2 (some s) none "B" =
      ⟨gen_unique_name s k, true,
        (d ++ [(s, i1)]) ++ [(gen_unique_name s k, i2)]⟩ := by
    simp only [measureInit, initShortName, if_pos hmem]
    rw [hk2, regInsert_of_not_mem i2 hk3]
  subst h2
  rw [e2]
  refine ⟨rfl, rfl, rfl, ⟨k, hk1, rfl, hk3, hk4⟩, ?_, ?_, ?_⟩
  · intro hg1
    have hg1' : gen_unique_name s 1 ∉ regKeys (d ++ [(s, i1)]) := by
      rw [hkeys1]
      intro hc
      rcases List.mem_append.mp hc with hc | hc
      · exact hg1 hc
      · exact gen_unique_name_ne_base s 1 (by simpa using hc)
    have hk_one : k = 1 := by
      by_contra hne
      exact hg1' (hk4 1 (le_refl 1) (by omega))
    rw [hk_one, gen_unique_name_one]
  · rw [get_by_short_name]
    have hget1 : regGet (d ++ [(s, i1)]) s = some i1 := by
      rw [regGet_append_right _ hs]
      exact regGet_singleton s i1
    exact regGet_append_of_some _ hget1
  · rw [get_by_short_name]
    rw [regGet_append_right _ hk3]
    exact regGet_singleton _ i2

/-- C1 witness: two constructions with explicit short name `foo` over the
empty registry. -/
theorem C1_duplicate_short_name_witness :
    (measureInit [] 0 (some "foo") none "A").short_name = "foo" ∧
    (measureInit (measureInit [] 0 (some "foo") none "A").dict 1
      (some "foo") none "B").warned = true := by
  have h := C1_duplicate_short_name [] "foo" 0 1 (by decide) _ _ rfl rfl
  exact ⟨h.1, h.2.2.1⟩

/-- C9: `get_by_short_name` on a name that is not a registry key returns
`none` (and raises no exception, being total); on a registered short name it
returns the registered instance. -/
theorem C9_get_by_short_name (d : Registry) (s : String) :
    (s ∉ regKeys d → get_by_short_name d s = none) ∧
    (∀ v, (s, v) ∈ d → (regKeys d).Nodup → get_by_short_name d s = some v) := by
  constructor
  · intro h
    exact regGet_eq_none_of_not_mem h
  · intro v hv hnd
    exact regGet_of_mem_nodup hv hnd

/-- C9 witness: lookup misses and hits on a concrete registry. -/
theorem C9_get_by_short_name_witness :
    get_by_short_name [("mse", 1)] "l2" = none ∧
    get_by_short_name [("mse", 1)] "mse" = some 1 :=
  ⟨(C9_get_by_short_name [("mse", 1)] "l2").1 (by decide),
   (C9_get_by_short_name [("mse", 1)] "mse").2 1 (by decide) (by decide)⟩

/-- C2 (code bug): a subclass that declares no default short name inherits the
class attribute `short_name = ""` from `Measure`, so the check
`self.short_name is None` in `Measure.__init__` fails and the instance is
registered under `""` instead of the class name `__name__`, contradicting the
documented fallback.  Evaluation of the embedded constructor at the failing
input: passed short name `None`, inherited class attribute `""`, class name
`MyMeasure`, empty registry. -/
theorem C2_default_name_code_bug :
    (measureInit [] 0 none (some "") "MyMeasure").short_name = "" ∧
    (measureInit [] 0 none (some "") "MyMeasure").short_name ≠ "MyMeasure" ∧
    get_by_short_name (measureInit [] 0 none (some "") "MyMeasure").dict
      "MyMeasure" = none ∧
    get_by_short_name (measureInit [] 0 none (some "") "MyMeasure").dict "" = some 0 := by
  decide

/-! Numeric claim theorems. -/

lemma sqDiff_self_sum (r : List ℝ) : (sqDiff r r).sum = 0 := by
  induction r with
  | nil => simp [sqDiff]
  | cons a t ih =>
    have hcons : sqDiff (a :: t) (a :: t) = 0 :: sqDiff t t := by
      simp [sqDiff, List.zip_cons_cons, sub_self]
    rw [hcons, List.sum_cons, ih, add_zero]

lemma mseOf_self (r : List ℝ) : mseOf r r = 0 := by
  rw [mseOf, sqDiff_self_sum, zero_div]

lemma mseOf_nonneg (r g : List ℝ) : 0 ≤ mseOf r g := by
  apply div_nonneg
  · apply List.sum_nonneg
    intro x hx
    obtain ⟨p, _, rfl⟩ := List.mem_map.mp hx
    positivity
  · positivity

/-- C4: for every reconstruction `r` and every configured `data_range`,
`PSNRMeasure.apply(r, r)` returns positive infinity: the zero-MSE case is
detected before any division or logarithm. -/
theorem C4_psnr_self_is_infinite (data_range : Option ℝ) (r : List ℝ) :
    PSNRMeasure_apply data_range r r = ⊤ := by
  simp [PSNRMeasure_apply, mseOf_self r]

/-- C5 counterexample: with `data_range` explicitly supplied as `0` the claim
formula `20*log10(data_range) - 10*log10(mse)` does not match the code, which
falls back to `max(gt) - min(gt)` because `0` is falsy. -/
theorem C5_counterexample :
    PSNRMeasure_apply (some 0) [0, 0] [0, 2] ≠
      ((20 * Real.logb 10 0 - 10 * Real.logb 10 (mseOf [0, 0] [0, 2]) : ℝ) : EReal) := by
  have hm : mseOf [0, 0] [0, 2] = 2 := by
    norm_num [mseOf, sqDiff, List.zip_cons_cons]
  have hmax : npMax [0, 2] = 2 := by
    norm_num [npMax, List.foldl]
  have hmin : npMin [0, 2] = 0 := by
    norm_num [npMin, List.foldl]
  have hcode : PSNRMeasure_apply (some 0) [0, 0] [0, 2] =
      ((20 * Real.logb 10 2 - 10 * Real.logb 10 2 : ℝ) : EReal) := by
    simp only [PSNRMeasure_apply, hm, hmax, hmin, pyOr]
    rw [if_neg (by norm_num : (2 : ℝ) ≠ 0)]
    norm_num
  rw [hcode, hm]
  intro hEq
  rw [EReal.coe_eq_coe_iff] at hEq
  have hlog : 0 < Real.logb 10 2 := Real.logb_pos (by norm_num) (by norm_num)
  rw [Real.logb_zero] at hEq
  linarith

/-- C5 (amended to nonzero `data_range`, as forced by the counterexample): for
every PSNRMeasure constructed with an explicitly supplied nonzero `data_range`
`d` and every pair with nonzero mean squared error, `apply` returns
`20*log10(d) - 10*log10(mse)`; in the concrete scenario `g = [0,0,0,4]`,
`r = [0,0,0,0]`, `d = 4` the mse is `4` and the result is
`20*log10(4) - 10*log10(4)`. -/
theorem C5_psnr_formula (d : ℝ) (hd : d ≠ 0) (r g : List ℝ)
    (hmse : mseOf r g ≠ 0) :
    PSNRMeasure_apply (some d) r g =
      ((20 * Real.logb 10 d - 10 * Real.logb 10 (mseOf r g) : ℝ) : EReal) ∧
    mseOf [0, 0, 0, 0] [0, 0, 0, 4] = 4 ∧
    PSNRMeasure_apply (some 4) [0, 0, 0, 0] [0, 0, 0, 4] =
      ((20 * Real.logb 10 4 - 10 * Real.logb 10 4 : ℝ) : EReal) := by
  have gen : ∀ (d : ℝ), d ≠ 0 → ∀ (r g : List ℝ), mseOf r g ≠ 0 →
      PSNRMeasure_apply (some d) r g =
        ((20 * Real.logb 10 d - 10 * Real.logb 10 (mseOf r g) : ℝ) : EReal) := by
    intro d hd r g hmse
    simp only [PSNRMeasure_apply, pyOr]
    rw [if_neg hmse, if_neg hd]
  have h4 : mseOf [0, 0, 0, 0] [0, 0, 0, 4] = 4 := by
    norm_num [mseOf, sqDiff, List.zip_cons_cons]
  refine ⟨gen d hd r g hmse, h4, ?_⟩
  rw [gen 4 (by norm_num) [0, 0, 0, 0] [0, 0, 0, 4] (by rw [h4]; norm_num), h4]

/-- C5 witness: the amended formula applied at the concrete scenario. -/
theorem C5_psnr_formula_witness :
    PSNRMeasure_apply (some 4) [0, 0, 0, 0] [0, 0, 0, 4] =
      ((20 * Real.logb 10 4
        - 10 * Real.logb 10 (mseOf [0, 0, 0, 0] [0, 0, 0, 4]) : ℝ) : EReal) :=
  (C5_psnr_formula 4 (by norm_num) [0, 0, 0, 0] [0, 0, 0, 4]
    (by norm_num [mseOf, sqDiff, List.zip_cons_cons])).1

/-- C6: for equal-shape inputs, `L2Measure.apply` is the square root of
`MSEMeasure.apply` times the element count; concretely, for `r = [1,1,1]` and
`g = [0,0,0]` the L2 distance is `sqrt 3` and the MSE is `1`. -/
theorem C6_l2_mse_relation (r g : List ℝ) (h : r.length = g.length) :
    L2Measure_apply r g = Real.sqrt (MSEMeasure_apply r g * r.length) ∧
    L2Measure_apply [1, 1, 1] [0, 0, 0] = Real.sqrt 3 ∧
    MSEMeasure_apply [1, 1, 1] [0, 0, 0] = 1 := by
  refine ⟨?_, ?_, ?_⟩
  · have hlen : (sqDiff r g).length = r.length := by
      simp [sqDiff, List.length_zip, h]
    rw [L2Measure_apply, MSEMeasure_apply, mseOf, hlen]
    rcases Nat.eq_zero_or_pos r.length with h0 | hpos
    · have hnil : sqDiff r g = [] := List.length_eq_zero.mp (by rw [hlen, h0])
      rw [h0, hnil]
      norm_num
    · have hne : (r.length : ℝ) ≠ 0 :=
        Nat.cast_ne_zero.mpr (Nat.pos_iff_ne_zero.mp hpos)
      rw [div_mul_cancel₀ _ hne]
  · rw [L2Measure_apply]
    norm_num [sqDiff, List.zip_cons_cons]
  · rw [MSEMeasure_apply, mseOf]
    norm_num [sqDiff, List.zip_cons_cons]

/-- C6 witness: the relation applied at a concrete equal-shape pair. -/
theorem C6_l2_mse_relation_witness :
    L2Measure_apply [2] [0] =
      Real.sqrt (MSEMeasure_apply [2] [0] * ([2] : List ℝ).length) :=
  (C6_l2_mse_relation [2] [0] rfl).1

/-- C7: for a fixed effective data range, `PSNRMeasure.apply` is monotonically
non-increasing in the mean squared error on the nonzero-MSE branch. -/
theorem C7_psnr_antitone_in_mse (data_range : Option ℝ) (r1 g1 r2 g2 : List ℝ)
    (hdr : pyOr data_range (npMax g1 - npMin g1) =
      pyOr data_range (npMax g2 - npMin g2))
    (h1 : mseOf r1 g1 ≠ 0) (h2 : mseOf r2 g2 ≠ 0)
    (hle : mseOf r1 g1 ≤ mseOf r2 g2) :
    PSNRMeasure_apply data_range r2 g2 ≤ PSNRMeasure_apply data_range r1 g1 := by
  simp only [PSNRMeasure_apply]
  rw [if_neg h1, if_neg h2, EReal.coe_le_coe_iff, ← hdr]
  have hp1 : 0 < mseOf r1 g1 := lt_of_le_of_ne (mseOf_nonneg r1 g1) (Ne.symm h1)
  have hlog := Real.logb_le_logb_of_le (by norm_num : (1 : ℝ) < 10) hp1 hle
  linarith

/-- C7 witness: a fixed explicit data range and two pairs with mse 1 and 4. -/
theorem C7_psnr_antitone_in_mse_witness :
    PSNRMeasure_apply (some 1) [0] [2] ≤ PSNRMeasure_apply (some 1) [0] [1] := by
  refine C7_psnr_antitone_in_mse (some 1) [0] [1] [0] [2]
    (by norm_num [pyOr]) ?_ ?_ ?_ <;>
    norm_num [mseOf, sqDiff, List.zip_cons_cons]

/-- C8: the operator returned by `as_operator_for_fixed_ground_truth(g)`,
applied to `r`, returns `apply(r, g)`; this holds for every measure and in
particular for the built-in L2, MSE, PSNR and SSIM measures. -/
theorem C8_operator_for_fixed_ground_truth :
    (∀ (α : Type) (m : MeasureData α) (g r : List ℝ),
      (as_operator_for_fixed_ground_truth m g).call r = m.apply r g) ∧
    (∀ g r : List ℝ,
      (as_operator_for_fixed_ground_truth L2 g).call r = L2Measure_apply r g) ∧
    (∀ g r : List ℝ,
      (as_operator_for_fixed_ground_truth MSE g).call r = MSEMeasure_apply r g) ∧
    (∀ (dr : Option ℝ) (g r : List ℝ),
      (as_operator_for_fixed_ground_truth (PSNR dr) g).call r =
        PSNRMeasure_apply dr r g) ∧
    (∀ (f : List ℝ → List ℝ → ℝ → ℝ) (dr : Option ℝ) (g r : List ℝ),
      (as_operator_for_fixed_ground_truth (SSIM f dr) g).call r =
        SSIMMeasure_apply f dr r g) :=
  ⟨fun _ _ _ _ => rfl, fun _ _ => rfl, fun _ _ => rfl, fun _ _ _ => rfl,
    fun _ _ _ _ => rfl⟩

/-- C10: `PSNRMeasure.apply` tests the configured `data_range` for truthiness,
so an explicitly supplied `data_range` of `0` is ignored and the per-call
value `max(gt) - min(gt)` is used instead; `SSIMMeasure.apply` tests the
configured value against `None`, so it passes an explicitly supplied
`data_range` of `0` through to `structural_similarity`. -/
theorem C10_data_range_truthiness :
    (∀ (r g : List ℝ), mseOf r g ≠ 0 →
      PSNRMeasure_apply (some 0) r g = PSNRMeasure_apply none r g ∧
      PSNRMeasure_apply (some 0) r g =
        ((20 * Real.logb 10 (npMax g - npMin g)
          - 10 * Real.logb 10 (mseOf r g) : ℝ) : EReal)) ∧
    (∀ (f : List ℝ → List ℝ → ℝ → ℝ) (r g : List ℝ),
      SSIMMeasure_apply f (some 0) r g = f r g 0) ∧
    (∀ g : List ℝ, SSIM_data_range (some 0) g = 0) := by
  refine ⟨?_, fun f r g => rfl, fun g => rfl⟩
  intro r g hmse
  have hpy : pyOr (some 0) (npMax g - npMin g) = npMax g - npMin g := by
    simp [pyOr]
  have hpy2 : pyOr none (npMax g - npMin g) = npMax g - npMin g := rfl
  constructor
  · simp only [PSNRMeasure_apply]
    rw [if_neg hmse, if_neg hmse, hpy, hpy2]
  · simp only [PSNRMeasure_apply]
    rw [if_neg hmse, hpy]

/-- C10 witness: a concrete pair with nonzero mse. -/
theorem C10_data_range_truthiness_witness :
    PSNRMeasure_apply (some 0) [0] [1] = PSNRMeasure_apply none [0] [1] :=
  (C10_data_range_truthiness.1 [0] [1]
    (by norm_num [mseOf, sqDiff, List.zip_cons_cons])).1

end Dival
